import Mathlib

/-!
Shallow embedding of the `core` package of the pipeline-plugin-system
repository (Go): the Context carrier, the Plugin contract, the Pipeline
executor with its two error strategies, and the Registry.

Values stored in a Context (`any` in Go) are modelled by a type parameter
`V`.  Go maps are modelled as `String → Option V`.  A Go error value is
modelled by the inductive `GoError`, covering plain `fmt.Errorf` errors,
`fmt.Errorf` with a `%w` wrap, and the `PipelineError` struct of the core.
A plugin mutates the context through a pointer and returns an optional
error, so `Plugin V := Context V → Context V × Option GoError`.
-/

namespace PipelineCore

/-- Go error values reachable in this program: `errorf msg` is a plain
`fmt.Errorf` (no `%w`), `wrapped msg cause` is `fmt.Errorf` with a `%w`
verb, and `pipelineError i e` is the `PipelineError{PluginIndex: i, Err: e}`
struct from the core. -/
inductive GoError where
  | errorf : String → GoError
  | wrapped : String → GoError → GoError
  | pipelineError : Nat → GoError → GoError
deriving DecidableEq, Repr

/-- `errors.Unwrap`: `PipelineError.Unwrap` returns `e.Err`; an error built
by `fmt.Errorf` with `%w` unwraps to its cause; a plain error has no cause. -/
def GoError.unwrap : GoError → Option GoError
  | .errorf _ => none
  | .wrapped _ e => some e
  | .pipelineError _ e => some e

/-- The `Context` struct: primary data, metadata map, collected errors,
and the internal state map. -/
structure Context (V : Type) where
  Data : V
  Metadata : String → Option V
  Errors : List GoError
  state : String → Option V

/-- `NewContext` creates a Context with the given data and empty maps. -/
def NewContext {V : Type} (data : V) : Context V :=
  { Data := data, Metadata := fun _ => none, Errors := [], state := fun _ => none }

/-- `Context.Set` stores a value in the metadata map. -/
def Context.Set {V : Type} (c : Context V) (key : String) (value : V) : Context V :=
  { c with Metadata := fun k => if k = key then some value else c.Metadata k }

/-- `Context.Get` reads the metadata map; `some v` models `(v, true)` and
`none` models `(nil, false)`. -/
def Context.Get {V : Type} (c : Context V) (key : String) : Option V :=
  c.Metadata key

/-- `Context.SetData` replaces the primary data. -/
def Context.SetData {V : Type} (c : Context V) (data : V) : Context V :=
  { c with Data := data }

/-- `Context.GetData` returns the primary data. -/
def Context.GetData {V : Type} (c : Context V) : V :=
  c.Data

/-- `Context.SetState` stores a value in the internal state map. -/
def Context.SetState {V : Type} (c : Context V) (key : String) (value : V) : Context V :=
  { c with state := fun k => if k = key then some value else c.state k }

/-- `Context.GetState` reads the internal state map. -/
def Context.GetState {V : Type} (c : Context V) (key : String) : Option V :=
  c.state key

/-- `Context.AddError` appends an error to the error collection. -/
def Context.AddError {V : Type} (c : Context V) (err : GoError) : Context V :=
  { c with Errors := c.Errors ++ [err] }

/-- The `Plugin` interface: `Execute(ctx *Context) error`.  The returned
context is the (possibly mutated) pointee; the second component is the
returned error. -/
def Plugin (V : Type) : Type :=
  Context V → Context V × Option GoError

/-- The `ErrorStrategy` enumeration. -/
inductive ErrorStrategy where
  | AbortOnError
  | ContinueOnError
deriving DecidableEq, Repr

/-- The `Pipeline` struct: an ordered plugin list and an error strategy. -/
structure Pipeline (V : Type) where
  plugins : List (Plugin V)
  errorStrategy : ErrorStrategy

/-- `NewPipeline` creates a pipeline with no plugins and the given strategy. -/
def NewPipeline {V : Type} (strategy : ErrorStrategy) : Pipeline V :=
  { plugins := [], errorStrategy := strategy }

/-- `Pipeline.Use` appends a plugin and returns the pipeline (fluent style). -/
def Pipeline.Use {V : Type} (p : Pipeline V) (plugin : Plugin V) : Pipeline V :=
  { p with plugins := p.plugins ++ [plugin] }

/-- The loop body of `Pipeline.Execute`, with the running zero-based index
`i` made explicit: run each plugin; on an error, either return the wrapped
`PipelineError` at once (AbortOnError) or record it via `AddError` and
continue (ContinueOnError). -/
def execLoop {V : Type} (strategy : ErrorStrategy) :
    Nat → List (Plugin V) → Context V → Context V × Option GoError
  | _, [], ctx => (ctx, none)
  | i, plugin :: rest, ctx =>
    match plugin ctx with
    | (ctx', some e) =>
      match strategy with
      | .AbortOnError => (ctx', some (.pipelineError i e))
      | .ContinueOnError =>
        execLoop strategy (i + 1) rest (ctx'.AddError (.pipelineError i e))
    | (ctx', none) => execLoop strategy (i + 1) rest ctx'

/-- `Pipeline.Execute` runs all plugins in order against the context,
starting the loop index at 0. -/
def Pipeline.Execute {V : Type} (p : Pipeline V) (ctx : Context V) :
    Context V × Option GoError :=
  execLoop p.errorStrategy 0 p.plugins ctx

/-- The `Registry` struct: a name → plugin map (the `sync.RWMutex` guards
the map in Go; the map itself is the state). -/
structure Registry (V : Type) where
  plugins : String → Option (Plugin V)

/-- `NewRegistry` creates a registry with an empty plugin map. -/
def NewRegistry {V : Type} : Registry V :=
  { plugins := fun _ => none }

/-- The error message of `Registry.Register` on a duplicate name. -/
def duplicateErr (name : String) : GoError :=
  .errorf ("plugin \"" ++ name ++ "\" is already registered")

/-- The error message of `Registry.Get` on a missing name. -/
def notFoundErr (name : String) : GoError :=
  .errorf ("plugin \"" ++ name ++ "\" not found in registry")

/-- `Registry.Register` adds a plugin under a name, failing (and leaving
the map untouched) when the name is already bound. -/
def Registry.Register {V : Type} (r : Registry V) (name : String)
    (plugin : Plugin V) : Registry V × Option GoError :=
  match r.plugins name with
  | some _ => (r, some (duplicateErr name))
  | none =>
    ({ plugins := fun n => if n = name then some plugin else r.plugins n }, none)

/-- `Registry.Get` retrieves a plugin by name, failing when it is absent. -/
def Registry.Get {V : Type} (r : Registry V) (name : String) :
    Except GoError (Plugin V) :=
  match r.plugins name with
  | some plugin => .ok plugin
  | none => .error (notFoundErr name)

/-- The loop of `Registry.BuildPipeline`: resolve each name via `Get` in
order, appending via `Use`; on the first failure return at once, wrapping
the lookup error with `fmt.Errorf("failed to build pipeline: %w", err)`
and discarding the partially-built pipeline. -/
def buildLoop {V : Type} (r : Registry V) :
    List String → Pipeline V → Except GoError (Pipeline V)
  | [], p => .ok p
  | name :: rest, p =>
    match r.Get name with
    | .error e => .error (.wrapped "failed to build pipeline" e)
    | .ok plugin => buildLoop r rest (p.Use plugin)

/-- `Registry.BuildPipeline` constructs a pipeline from a list of names. -/
def Registry.BuildPipeline {V : Type} (r : Registry V) (names : List String)
    (strategy : ErrorStrategy) : Except GoError (Pipeline V) :=
  buildLoop r names (NewPipeline strategy)

/-! Derived notions used to state the claims. -/

/-- Sequential application of a plugin list to a context, keeping only the
mutated context (the trace of contexts an execution threads through). -/
def runAll {V : Type} : List (Plugin V) → Context V → Context V
  | [], ctx => ctx
  | plugin :: rest, ctx => runAll rest (plugin ctx).1

/-- `true` when every plugin in the list, applied in sequence, returns no
error. -/
def succeedsAll {V : Type} : List (Plugin V) → Context V → Bool
  | [], _ => true
  | plugin :: rest, ctx =>
    match plugin ctx with
    | (_, some _) => false
    | (ctx', none) => succeedsAll rest ctx'

/-- The (index, error) pairs of the plugins that fail along the sequential
run, the index counter starting at `i`. -/
def contFailures {V : Type} : Nat → List (Plugin V) → Context V → List (Nat × GoError)
  | _, [], _ => []
  | i, plugin :: rest, ctx =>
    match plugin ctx with
    | (ctx', some e) => (i, e) :: contFailures (i + 1) rest ctx'
    | (ctx', none) => contFailures (i + 1) rest ctx'

/-- A plugin that never touches the `Errors` field of the context: its
result on a context whose `Errors` field is replaced is the result on the
original context with the same replacement.  Instantiating the replacement
with `c.Errors` shows such a plugin also never writes `Errors`. -/
def ErrorsOblivious {V : Type} (plugin : Plugin V) : Prop :=
  ∀ (c : Context V) (es : List GoError),
    plugin { c with Errors := es } = ({ (plugin c).1 with Errors := es }, (plugin c).2)

/-- A plugin that leaves the `Errors` field of the context unchanged. -/
def PreservesErrors {V : Type} (plugin : Plugin V) : Prop :=
  ∀ c : Context V, ((plugin c).1).Errors = c.Errors

/-- All names in a list resolved against a registry map, in order;
`none` when some name is unbound. -/
def resolveAll {V : Type} (r : Registry V) : List String → Option (List (Plugin V))
  | [] => some []
  | name :: rest =>
    match r.plugins name with
    | none => none
    | some plugin => (resolveAll r rest).map (plugin :: ·)

/-- Receiver-threaded form of `Pipeline.Execute`: the Go method body reads
`p.plugins` and `p.errorStrategy` and assigns only to locals and through
`ctx`, never to a field of `p`, so the receiver passes through unchanged. -/
def Pipeline.ExecuteSt {V : Type} (p : Pipeline V) (ctx : Context V) :
    Pipeline V × (Context V × Option GoError) :=
  (p, execLoop p.errorStrategy 0 p.plugins ctx)

/-! Concrete plugins, contexts and registries used by the witnesses. -/

/-- A plugin that succeeds without touching the context. -/
def idPlugin {V : Type} : Plugin V :=
  fun c => (c, none)

/-- A plugin that fails with a fixed error without touching the context. -/
def failPlugin {V : Type} (e : GoError) : Plugin V :=
  fun c => (c, some e)

/-- A plugin that records a marker value under a metadata key and succeeds. -/
def markPlugin {V : Type} (key : String) (v : V) : Plugin V :=
  fun c => (c.Set key v, none)

/-- A registry binding `"a"` to `idPlugin` over `Nat` data. -/
def regA : Registry Nat :=
  { plugins := fun n => if n = "a" then some idPlugin else none }

/-- Plugin list used by the ContinueOnError witness: failures at indices 0
and 2, a succeeding marker in between. -/
def contWitnessPlugins : List (Plugin Nat) :=
  [failPlugin (.errorf "e0"), markPlugin "m" 1, failPlugin (.errorf "e2")]

/-! Theorems. -/

/-- C7: executing a pipeline to which no plugin was ever appended returns
no failure and hands back the context exactly as given — data, metadata,
state and errors all unchanged — for every strategy. -/
theorem empty_pipeline_execute {V : Type} (strategy : ErrorStrategy) (ctx : Context V) :
    Pipeline.Execute (NewPipeline strategy) ctx = (ctx, none) :=
  rfl

/-- C10: executing a pipeline leaves the pipeline itself unchanged — its
plugin sequence and strategy are identical before and after (the Go method
body never assigns to a receiver field), the result agrees with `Execute`,
and a subsequent execute on the returned pipeline runs exactly as on the
original. -/
theorem execute_preserves_pipeline {V : Type} (p : Pipeline V) (ctx ctx2 : Context V) :
    (p.ExecuteSt ctx).1.plugins = p.plugins
    ∧ (p.ExecuteSt ctx).1.errorStrategy = p.errorStrategy
    ∧ (p.ExecuteSt ctx).2 = p.Execute ctx
    ∧ (p.ExecuteSt ctx).1.Execute ctx2 = p.Execute ctx2 :=
  ⟨rfl, rfl, rfl, rfl⟩

/-- C8: `Get` fails with the NotFound error exactly when the name is
unbound, and on a bound name returns the bound plugin (the registry map is
read, never written, by `Get`). -/
theorem registry_get_spec {V : Type} (r : Registry V) (name : String) :
    (r.Get name = .error (notFoundErr name) ↔ r.plugins name = none)
    ∧ ∀ plugin, r.plugins name = some plugin → r.Get name = .ok plugin := by
  cases h : r.plugins name <;>
    simp [Registry.Get, h]

/-- C8 witness at a concrete registry: lookup of a missing name fails with
NotFound and lookup of a bound name yields its plugin. -/
theorem registry_get_spec_witness :
    regA.Get "missing" = .error (notFoundErr "missing")
    ∧ regA.Get "a" = .ok idPlugin :=
  ⟨(registry_get_spec regA "missing").1.mpr (by simp [regA]),
   (registry_get_spec regA "a").2 idPlugin (by simp [regA])⟩

/-- C4: `Register` fails with the DuplicateName error exactly when the name
is already bound, leaving the map unchanged so a subsequent `Get` still
yields the original plugin; on an unbound name it succeeds, inserts the
binding, and touches no other binding. -/
theorem registry_register_spec {V : Type} (r : Registry V) (name : String) (plugin : Plugin V) :
    (∀ old, r.plugins name = some old →
      r.Register name plugin = (r, some (duplicateErr name))
      ∧ ((r.Register name plugin).1).Get name = .ok old)
    ∧ (r.plugins name = none →
      (r.Register name plugin).2 = none
      ∧ ((r.Register name plugin).1).plugins name = some plugin
      ∧ ∀ n, n ≠ name → ((r.Register name plugin).1).plugins n = r.plugins n) := by
  cases h : r.plugins name with
  | some old => simp [Registry.Register, Registry.Get, h]
  | none =>
    refine ⟨by simp [h], fun _ => ⟨by simp [Registry.Register, h], by simp [Registry.Register, h], ?_⟩⟩
    intro n hn
    simp [Registry.Register, h, hn]

/-- C4 witness: registering `"a"` again fails with DuplicateName and leaves
the original binding visible to `Get`; registering `"b"` succeeds, inserts
the binding, and leaves `"a"` untouched. -/
theorem registry_register_spec_witness :
    regA.Register "a" (failPlugin (.errorf "B")) = (regA, some (duplicateErr "a"))
    ∧ ((regA.Register "a" (failPlugin (.errorf "B"))).1).Get "a" = .ok idPlugin
    ∧ ((regA.Register "b" (failPlugin (.errorf "B"))).2) = none
    ∧ ((regA.Register "b" (failPlugin (.errorf "B"))).1).plugins "b"
        = some (failPlugin (.errorf "B"))
    ∧ ((regA.Register "b" (failPlugin (.errorf "B"))).1).plugins "a" = some idPlugin := by
  have h1 := (registry_register_spec regA "a" (failPlugin (.errorf "B"))).1 idPlugin (by simp [regA])
  have h2 := (registry_register_spec regA "b" (failPlugin (.errorf "B"))).2 (by simp [regA])
  exact ⟨h1.1, h1.2, h2.1, h2.2.1, (h2.2.2 "a" (by decide)).trans (by simp [regA])⟩

/-- C9: setting a metadata key makes `Get` on that key return the value,
while data, state, errors and every other metadata key are unchanged; the
same holds symmetrically for the state map, which is fully independent of
the metadata map. -/
theorem context_set_get_frame {V : Type} (c : Context V) (k k' : String) (v : V)
    (h : k' ≠ k) :
    (c.Set k v).Get k = some v
    ∧ (c.Set k v).Get k' = c.Get k'
    ∧ (c.Set k v).Data = c.Data
    ∧ (c.Set k v).state = c.state
    ∧ (c.Set k v).Errors = c.Errors
    ∧ (c.SetState k v).GetState k = some v
    ∧ (c.SetState k v).GetState k' = c.GetState k'
    ∧ (c.SetState k v).Data = c.Data
    ∧ (c.SetState k v).Metadata = c.Metadata
    ∧ (c.SetState k v).Errors = c.Errors := by
  refine ⟨?_, ?_, rfl, rfl, rfl, ?_, ?_, rfl, rfl, rfl⟩ <;>
    simp [Context.Set, Context.Get, Context.SetState, Context.GetState, h]

/-- C9 witness at a concrete context and distinct keys. -/
theorem context_set_get_frame_witness :
    ((NewContext (5 : Nat)).Set "k" 7).Get "k" = some 7
    ∧ ((NewContext (5 : Nat)).Set "k" 7).Get "other" = (NewContext (5 : Nat)).Get "other"
    ∧ ((NewContext (5 : Nat)).Set "k" 7).Data = 5
    ∧ ((NewContext (5 : Nat)).SetState "k" 9).GetState "k" = some 9
    ∧ ((NewContext (5 : Nat)).SetState "k" 9).Metadata = (NewContext (5 : Nat)).Metadata := by
  have h := context_set_get_frame (NewContext (5 : Nat)) "k" "other" 7 (by decide)
  have h' := context_set_get_frame (NewContext (5 : Nat)) "k" "other" 9 (by decide)
  exact ⟨h.1, h.2.1, h.2.2.1, h'.2.2.2.2.2.1, h'.2.2.2.2.2.2.2.2.1⟩

/-- When every plugin in the list succeeds along the run, the loop (under
either strategy, from any start index) returns the sequentially mutated
context and no error. -/
theorem execLoop_succeedsAll {V : Type} (l : List (Plugin V)) :
    ∀ (strategy : ErrorStrategy) (i : Nat) (ctx : Context V),
      succeedsAll l ctx = true →
      execLoop strategy i l ctx = (runAll l ctx, none) := by
  induction l with
  | nil => intro s i ctx _; rfl
  | cons plugin rest ih =>
    intro s i ctx h
    rcases hpl : plugin ctx with ⟨ctx', err⟩
    cases err with
    | some e => simp [succeedsAll, hpl] at h
    | none =>
      simp only [succeedsAll, hpl] at h
      simp only [execLoop, hpl, runAll]
      exact ih s (i + 1) ctx' h

/-- C6: when all plugins succeed on the given context, `Execute` (under
either strategy) returns no failure and the final context is the strict
left-to-right sequential application of the plugins, each invoked exactly
once, in the order they were appended — and `Use` appends at the tail, so
that order is the append order. -/
theorem execute_all_succeed {V : Type} (plugins : List (Plugin V))
    (strategy : ErrorStrategy) (ctx : Context V)
    (h : succeedsAll plugins ctx = true) :
    Pipeline.Execute { plugins := plugins, errorStrategy := strategy } ctx
      = (runAll plugins ctx, none)
    ∧ ∀ (p : Pipeline V) (plugin : Plugin V), (p.Use plugin).plugins = p.plugins ++ [plugin] :=
  ⟨execLoop_succeedsAll plugins strategy 0 ctx h, fun _ _ => rfl⟩

/-- C6 witness: two marker plugins both succeed; execution returns no
failure and applies them in append order. -/
theorem execute_all_succeed_witness :
    Pipeline.Execute
        { plugins := [markPlugin "0" (0 : Nat), markPlugin "1" 1],
          errorStrategy := .AbortOnError } (NewContext 42)
      = (((NewContext 42).Set "0" 0).Set "1" 1, none) :=
  (execute_all_succeed [markPlugin "0" (0 : Nat), markPlugin "1" 1]
    .AbortOnError (NewContext 42) rfl).1

/-- Under AbortOnError the loop never changes the `Errors` field, as long
as no plugin does. -/
theorem execLoop_abort_errors {V : Type} (l : List (Plugin V)) :
    ∀ (i : Nat) (ctx : Context V),
      (∀ plugin ∈ l, PreservesErrors plugin) →
      ((execLoop .AbortOnError i l ctx).1).Errors = ctx.Errors := by
  induction l with
  | nil => intro i ctx _; rfl
  | cons plugin rest ih =>
    intro i ctx h
    have hpe : ((plugin ctx).1).Errors = ctx.Errors :=
      h plugin (List.mem_cons_self _ _) ctx
    rcases hpl : plugin ctx with ⟨ctx', err⟩
    rw [hpl] at hpe
    cases err with
    | some e => simpa [execLoop, hpl] using hpe
    | none =>
      simp only [execLoop, hpl]
      exact (ih (i + 1) ctx' (fun q hq => h q (List.mem_cons_of_mem _ hq))).trans hpe

/-- C5: under AbortOnError, executing a pipeline never appends to the
context's errors sequence, provided no plugin itself touches it — whether
or not any plugin fails. -/
theorem abortOnError_no_error_append {V : Type} (plugins : List (Plugin V))
    (ctx : Context V)
    (h : ∀ plugin ∈ plugins, PreservesErrors plugin) :
    ((Pipeline.Execute { plugins := plugins, errorStrategy := .AbortOnError } ctx).1).Errors
      = ctx.Errors :=
  execLoop_abort_errors plugins 0 ctx h

/-- C5 witness: a marker plugin, a failing plugin and a trailing plugin,
none touching `Errors`; after an AbortOnError execution the context's
errors sequence is still empty. -/
theorem abortOnError_no_error_append_witness :
    ((Pipeline.Execute
        { plugins := [markPlugin "m" (1 : Nat), failPlugin (.errorf "boom"), idPlugin],
          errorStrategy := .AbortOnError } (NewContext 0)).1).Errors = [] :=
  abortOnError_no_error_append _ (NewContext 0)
    (by
      intro plugin hpl
      simp only [List.mem_cons, List.mem_singleton, List.not_mem_nil, or_false] at hpl
      rcases hpl with h | h | h <;> subst h <;> intro c <;> rfl)

/-- Under AbortOnError, if every plugin of `pre` succeeds along the run and
the next plugin fails, the loop stops there: it returns the context as
mutated up to and including the failing plugin and the wrapped error whose
index is the failing plugin's position, independently of what follows. -/
theorem execLoop_abort_first {V : Type} (plugin : Plugin V) (post : List (Plugin V))
    (e : GoError) (pre : List (Plugin V)) :
    ∀ (i : Nat) (ctx : Context V),
      succeedsAll pre ctx = true →
      (plugin (runAll pre ctx)).2 = some e →
      execLoop .AbortOnError i (pre ++ plugin :: post) ctx
        = ((plugin (runAll pre ctx)).1, some (.pipelineError (i + pre.length) e)) := by
  induction pre with
  | nil =>
    intro i ctx _ hfail
    rcases hpl : plugin ctx with ⟨ctx', err⟩
    simp only [runAll, hpl] at hfail ⊢
    subst hfail
    simp [execLoop, hpl]
  | cons q pre' ih =>
    intro i ctx hsucc hfail
    rcases hq : q ctx with ⟨ctx', err⟩
    simp only [succeedsAll, hq] at hsucc
    cases err with
    | some e' => simp at hsucc
    | none =>
      simp only at hsucc
      simp only [runAll, hq] at hfail ⊢
      have hstep : execLoop .AbortOnError i ((q :: pre') ++ plugin :: post) ctx
          = execLoop .AbortOnError (i + 1) (pre' ++ plugin :: post) ctx' := by
        simp [execLoop, hq]
      rw [hstep, ih (i + 1) ctx' hsucc hfail]
      have hlen : i + 1 + pre'.length = i + (pre'.length + 1) := by omega
      rw [List.length_cons, hlen]

/-- C1: under AbortOnError, when the plugins before position `k` all
succeed and the plugin at zero-based position `k` fails with `e`, `Execute`
returns a PipelineError recording index `k` whose unwrapping is exactly
`e`, the context is mutated only up to the failing plugin, and the result
is the same whatever plugins sit at positions greater than `k` — they are
never invoked. -/
theorem abortOnError_first_failure {V : Type} (pre post : List (Plugin V))
    (plugin : Plugin V) (ctx : Context V) (e : GoError)
    (hpre : succeedsAll pre ctx = true)
    (hfail : (plugin (runAll pre ctx)).2 = some e) :
    Pipeline.Execute { plugins := pre ++ plugin :: post, errorStrategy := .AbortOnError } ctx
      = ((plugin (runAll pre ctx)).1, some (.pipelineError pre.length e))
    ∧ (GoError.pipelineError pre.length e).unwrap = some e := by
  refine ⟨?_, rfl⟩
  have h := execLoop_abort_first plugin post e pre 0 ctx hpre hfail
  simpa [Pipeline.Execute] using h

/-- C1 witness: one succeeding marker plugin, then a failing plugin, then a
trailing plugin; execution aborts at index 1 with the wrapped failure, the
trailing plugin never runs. -/
theorem abortOnError_first_failure_witness :
    Pipeline.Execute
        { plugins := [markPlugin "m" (1 : Nat), failPlugin (.errorf "boom"),
                      markPlugin "late" 9],
          errorStrategy := .AbortOnError } (NewContext 0)
      = ((NewContext (0 : Nat)).Set "m" 1, some (.pipelineError 1 (.errorf "boom")))
    ∧ (GoError.pipelineError 1 (.errorf "boom")).unwrap = some (.errorf "boom") :=
  abortOnError_first_failure [markPlugin "m" (1 : Nat)] [markPlugin "late" 9]
    (failPlugin (.errorf "boom")) (NewContext 0) (.errorf "boom") rfl rfl

/-- When every name in `pre` is bound and `bad` is unbound, the build loop
fails at `bad` with the wrapping error, whatever pipeline has been
accumulated and whatever names follow. -/
theorem buildLoop_error {V : Type} (r : Registry V) (bad : String)
    (rest : List String) (hbad : r.plugins bad = none) (pre : List String) :
    ∀ p : Pipeline V, (∀ n ∈ pre, (r.plugins n).isSome) →
      buildLoop r (pre ++ bad :: rest) p
        = .error (.wrapped "failed to build pipeline" (notFoundErr bad)) := by
  induction pre with
  | nil => intro p _; simp [buildLoop, Registry.Get, hbad]
  | cons n pre' ih =>
    intro p h
    have hn := h n (List.mem_cons_self _ _)
    rcases hsome : r.plugins n with _ | plugin
    · rw [hsome] at hn; simp at hn
    · simp only [List.cons_append, buildLoop, Registry.Get, hsome]
      exact ih _ (fun m hm => h m (List.mem_cons_of_mem _ hm))

/-- When every name resolves, the build loop succeeds and appends the
resolved plugins, in name order, to the accumulated pipeline, keeping its
strategy. -/
theorem buildLoop_ok {V : Type} (r : Registry V) (names : List String) :
    ∀ (p : Pipeline V) (pls : List (Plugin V)),
      resolveAll r names = some pls →
      buildLoop r names p
        = .ok { plugins := p.plugins ++ pls, errorStrategy := p.errorStrategy } := by
  induction names with
  | nil =>
    intro p pls h
    simp only [resolveAll, Option.some_inj] at h
    subst h
    simp [buildLoop]
  | cons n rest ih =>
    intro p pls h
    rcases hn : r.plugins n with _ | plugin
    · rw [resolveAll, hn] at h; cases h
    · rw [resolveAll, hn] at h
      rcases hrest : resolveAll r rest with _ | pls'
      · rw [hrest] at h; cases h
      · rw [hrest] at h
        simp only [Option.map_some', Option.some_inj] at h
        subst h
        simp only [buildLoop, Registry.Get, hn]
        rw [ih (p.Use plugin) pls' hrest]
        simp [Pipeline.Use]

/-- C3: `BuildPipeline` resolves names in order; at the first unbound name
it returns only a failure wrapping the NotFound error for that name (so the
failing build step is identified by the name the wrapped cause carries) and
no pipeline, whatever the earlier resolved plugins and later names were;
when every name resolves it returns a pipeline whose plugin sequence is
exactly the resolved plugins in name order, under the given strategy. -/
theorem buildPipeline_spec {V : Type} (r : Registry V) (strategy : ErrorStrategy) :
    (∀ (pre rest : List String) (bad : String),
      (∀ n ∈ pre, (r.plugins n).isSome) → r.plugins bad = none →
      r.BuildPipeline (pre ++ bad :: rest) strategy
        = .error (.wrapped "failed to build pipeline" (notFoundErr bad)))
    ∧ ∀ (names : List String) (pls : List (Plugin V)),
      resolveAll r names = some pls →
      r.BuildPipeline names strategy = .ok { plugins := pls, errorStrategy := strategy } := by
  constructor
  · intro pre rest bad hpre hbad
    exact buildLoop_error r bad rest hbad pre (NewPipeline strategy) hpre
  · intro names pls h
    have hb := buildLoop_ok r names (NewPipeline strategy) pls h
    simpa [NewPipeline] using hb

/-- C3 witness: building `["a", "missing", "b"]` against the concrete
registry fails with the wrapped NotFound for `"missing"` and yields no
pipeline, while building `["a"]` succeeds with the resolved plugin list. -/
theorem buildPipeline_spec_witness :
    regA.BuildPipeline ["a", "missing", "b"] .AbortOnError
      = .error (.wrapped "failed to build pipeline" (notFoundErr "missing"))
    ∧ regA.BuildPipeline ["a"] .AbortOnError
      = .ok { plugins := [idPlugin], errorStrategy := .AbortOnError } :=
  ⟨(buildPipeline_spec regA .AbortOnError).1 ["a"] ["b"] "missing"
      (by intro n hn; simp only [List.mem_singleton] at hn; subst hn; simp [regA])
      (by simp [regA]),
   (buildPipeline_spec regA .AbortOnError).2 ["a"] [idPlugin] (by simp [resolveAll, regA])⟩

/-- Under ContinueOnError, with plugins that never touch the `Errors`
field, the loop runs every plugin in sequence, returns no error, and the
final `Errors` field is the incoming one extended by the wrapped failures
in run order. -/
theorem execLoop_cont {V : Type} (l : List (Plugin V)) :
    ∀ (i : Nat) (c : Context V) (es : List GoError),
      (∀ plugin ∈ l, ErrorsOblivious plugin) →
      execLoop .ContinueOnError i l { c with Errors := es }
        = ({ runAll l c with
             Errors := es ++ (contFailures i l c).map (fun q => GoError.pipelineError q.1 q.2) },
           none) := by
  induction l with
  | nil => intro i c es _; simp [execLoop, runAll, contFailures]
  | cons plugin rest ih =>
    intro i c es h
    have hobl := h plugin (List.mem_cons_self _ _)
    rcases hpl : plugin c with ⟨c', err⟩
    have hstep : plugin { c with Errors := es } = ({ c' with Errors := es }, err) := by
      rw [hobl c es, hpl]
    have hrest : ∀ q ∈ rest, ErrorsOblivious q := fun q hq => h q (List.mem_cons_of_mem _ hq)
    cases err with
    | some e =>
      have h1 : execLoop .ContinueOnError i (plugin :: rest) { c with Errors := es }
          = execLoop .ContinueOnError (i + 1) rest
              { c' with Errors := es ++ [GoError.pipelineError i e] } := by
        simp [execLoop, hstep, Context.AddError]
      rw [h1, ih (i + 1) c' (es ++ [GoError.pipelineError i e]) hrest]
      simp [runAll, contFailures, hpl]
    | none =>
      have h1 : execLoop .ContinueOnError i (plugin :: rest) { c with Errors := es }
          = execLoop .ContinueOnError (i + 1) rest { c' with Errors := es } := by
        simp [execLoop, hstep]
      rw [h1, ih (i + 1) c' es hrest]
      simp [runAll, contFailures, hpl]

/-- Membership in `contFailures`: the entries starting the counter at `i`
are exactly the pairs `(i + k, e)` where the plugin at position `k` fails
with `e` on the context reached after the plugins before it. -/
theorem mem_contFailures {V : Type} (l : List (Plugin V)) :
    ∀ (i : Nat) (c : Context V) (j : Nat) (e : GoError),
      (j, e) ∈ contFailures i l c ↔
        ∃ k plugin, j = i + k ∧ l.get? k = some plugin
          ∧ (plugin (runAll (l.take k) c)).2 = some e := by
  induction l with
  | nil => intro i c j e; simp [contFailures]
  | cons plugin rest ih =>
    intro i c j e
    rcases hpl : plugin c with ⟨c', err⟩
    cases err with
    | some e' =>
      simp only [contFailures, hpl, List.mem_cons]
      constructor
      · rintro (heq | hmem)
        · obtain ⟨hj, he⟩ := Prod.mk.injEq .. ▸ heq
          refine ⟨0, plugin, by omega, rfl, ?_⟩
          simp only [List.take_zero, runAll, hpl]
          exact congrArg some he.symm
        · obtain ⟨k, pl', hj, hget, hfail⟩ := (ih (i + 1) c' j e).mp hmem
          exact ⟨k + 1, pl', by omega, by simpa using hget,
            by simpa [List.take_succ_cons, runAll, hpl] using hfail⟩
      · rintro ⟨k, pl', hj, hget, hfail⟩
        cases k with
        | zero =>
          left
          simp only [List.get?] at hget
          obtain rfl : plugin = pl' := by injection hget with h
          simp only [List.take_zero, runAll, hpl] at hfail
          obtain rfl : e' = e := by injection hfail with h
          have : j = i := by omega
          exact this ▸ rfl
        | succ k' =>
          right
          exact (ih (i + 1) c' j e).mpr ⟨k', pl', by omega, by simpa using hget,
            by simpa [List.take_succ_cons, runAll, hpl] using hfail⟩
    | none =>
      simp only [contFailures, hpl]
      rw [ih (i + 1) c' j e]
      constructor
      · rintro ⟨k, pl', hj, hget, hfail⟩
        exact ⟨k + 1, pl', by omega, by simpa using hget,
          by simpa [List.take_succ_cons, runAll, hpl] using hfail⟩
      · rintro ⟨k, pl', hj, hget, hfail⟩
        cases k with
        | zero =>
          simp only [List.get?] at hget
          obtain rfl : plugin = pl' := by injection hget with h
          simp only [List.take_zero, runAll, hpl] at hfail
          cases hfail
        | succ k' =>
          exact ⟨k', pl', by omega, by simpa using hget,
            by simpa [List.take_succ_cons, runAll, hpl] using hfail⟩

/-- Every entry of `contFailures i l c` has index at least `i`. -/
theorem contFailures_ge {V : Type} (l : List (Plugin V)) :
    ∀ (i : Nat) (c : Context V) (q : Nat × GoError),
      q ∈ contFailures i l c → i ≤ q.1 := by
  induction l with
  | nil => intro i c q hq; simp [contFailures] at hq
  | cons plugin rest ih =>
    intro i c q hq
    rcases hpl : plugin c with ⟨c', err⟩
    cases err with
    | some e =>
      simp only [contFailures, hpl, List.mem_cons] at hq
      rcases hq with rfl | hq
      · exact le_refl i
      · exact le_trans (by omega) (ih (i + 1) c' q hq)
    | none =>
      simp only [contFailures, hpl] at hq
      exact le_trans (by omega) (ih (i + 1) c' q hq)

/-- The indices recorded by `contFailures` are strictly ascending. -/
theorem contFailures_pairwise {V : Type} (l : List (Plugin V)) :
    ∀ (i : Nat) (c : Context V),
      (contFailures i l c).Pairwise (fun a b => a.1 < b.1) := by
  induction l with
  | nil => intro i c; simp [contFailures]
  | cons plugin rest ih =>
    intro i c
    rcases hpl : plugin c with ⟨c', err⟩
    cases err with
    | some e =>
      simp only [contFailures, hpl]
      refine List.Pairwise.cons ?_ (ih (i + 1) c')
      intro b hb
      have hge := contFailures_ge rest (i + 1) c' b hb
      simp only
      omega
    | none =>
      simp only [contFailures, hpl]
      exact ih (i + 1) c'

/-- C2: under ContinueOnError, with a context whose errors sequence starts
empty and plugins that never touch it themselves, `Execute` returns no
failure; every plugin is applied exactly once in sequence (the final
context is the full sequential application); the errors sequence afterwards
holds exactly one wrapped entry per failing plugin, in strictly ascending
index order, the entries being precisely the indices at which the plugin
failed on the context it received, and each entry unwraps to the original
plugin failure. -/
theorem continueOnError_execute {V : Type} (plugins : List (Plugin V)) (ctx : Context V)
    (hobl : ∀ plugin ∈ plugins, ErrorsOblivious plugin) (hE : ctx.Errors = []) :
    (Pipeline.Execute { plugins := plugins, errorStrategy := .ContinueOnError } ctx).2 = none
    ∧ (Pipeline.Execute { plugins := plugins, errorStrategy := .ContinueOnError } ctx).1
        = { runAll plugins ctx with
            Errors := (contFailures 0 plugins ctx).map (fun q => GoError.pipelineError q.1 q.2) }
    ∧ (∀ (j : Nat) (e : GoError),
        (j, e) ∈ contFailures 0 plugins ctx ↔
          ∃ plugin, plugins.get? j = some plugin
            ∧ (plugin (runAll (plugins.take j) ctx)).2 = some e)
    ∧ (contFailures 0 plugins ctx).Pairwise (fun a b => a.1 < b.1)
    ∧ ∀ q ∈ contFailures 0 plugins ctx,
        (GoError.pipelineError q.1 q.2).unwrap = some q.2 := by
  have hctx : { ctx with Errors := ([] : List GoError) } = ctx := by
    cases ctx
    simp_all
  have hmain := execLoop_cont plugins 0 ctx [] hobl
  rw [hctx] at hmain
  refine ⟨?_, ?_, ?_, contFailures_pairwise plugins 0 ctx, fun q _ => rfl⟩
  · simp [Pipeline.Execute, hmain]
  · simp [Pipeline.Execute, hmain]
  · intro j e
    rw [mem_contFailures plugins 0 ctx j e]
    constructor
    · rintro ⟨k, plugin, hj, hget, hfail⟩
      obtain rfl : j = k := by omega
      exact ⟨plugin, hget, hfail⟩
    · rintro ⟨plugin, hget, hfail⟩
      exact ⟨j, plugin, by omega, hget, hfail⟩

/-- C2 witness: three concrete plugins failing at indices 0 and 2 under
ContinueOnError; execution returns no failure, the final context is the
sequential application, and the collected indices are strictly ascending. -/
theorem continueOnError_execute_witness :
    (Pipeline.Execute
        { plugins := contWitnessPlugins, errorStrategy := .ContinueOnError }
        (NewContext 0)).2 = none
    ∧ (Pipeline.Execute
        { plugins := contWitnessPlugins, errorStrategy := .ContinueOnError }
        (NewContext 0)).1
        = { runAll contWitnessPlugins (NewContext 0) with
            Errors := (contFailures 0 contWitnessPlugins (NewContext 0)).map
              (fun q => GoError.pipelineError q.1 q.2) }
    ∧ (contFailures 0 contWitnessPlugins (NewContext 0)).Pairwise
        (fun a b => a.1 < b.1) := by
  have h := continueOnError_execute contWitnessPlugins (NewContext 0)
    (by
      intro plugin hpl
      simp only [contWitnessPlugins, List.mem_cons, List.not_mem_nil, or_false] at hpl
      rcases hpl with h | h | h <;> subst h <;> intro c es <;> rfl)
    rfl
  exact ⟨h.1, h.2.1, h.2.2.2.1⟩

end PipelineCore
